import Mathlib

/-!
Verification development for the shaka-packager encryption-key source and
local-file components.

Part 1 models `WidevineEncryptionKeySource`
(src/media/base/widevine_encryption_key_source.h).  Only the header of that
class is in the repository, so the behaviour of its member functions is
modelled from the specification (each such definition carries a doc comment
starting with `Modelled from the spec:`).

Part 2 embeds `LocalFile` (src/packager/media/file/local_file.cc), whose
implementation is present in the repository and is translated directly.
-/

/-! ## Part 1: WidevineEncryptionKeySource model -/

/-- Track types requiring independent keys (spec §3: enumeration
distinguishing independently-keyed tracks, e.g. audio vs. video). -/
inductive TrackType
  | SD
  | HD
  | AUDIO
deriving DecidableEq

/-- An encryption key: opaque byte material plus auxiliary fields
(spec §3: key id, IV). Bytes are modelled as natural numbers. -/
structure EncryptionKey where
  key_id : List Nat
  key : List Nat
  iv : List Nat
deriving DecidableEq

/-- `EncryptionKeyMap` is `std::map<TrackType, EncryptionKey*>` from the
header: the key batch for one crypto period, keyed by track type. -/
abbrev EncryptionKeyMap := List (TrackType × EncryptionKey)

/-- Lookup of the entry for a track type in an `EncryptionKeyMap`. -/
def lookupTrack (m : EncryptionKeyMap) (t : TrackType) : Option EncryptionKey :=
  match m with
  | [] => none
  | (u, k) :: rest => if u = t then some k else lookupTrack rest t

/-- Result-code domain, following the error taxonomy of spec §7. -/
inductive Status
  | OK
  | ConfigurationError
  | SigningError
  | TransportError
  | DecodeError
  | ServerRejection
  | ServerBusy
  | ProtocolDesync
  | UsageError
deriving DecidableEq

/-- The mutable state of a `WidevineEncryptionKeySource` instance that the
consumer-facing API touches, mirroring the private fields of the header:
`key_production_started_`, `first_crypto_period_index_`, the queue position
(the lowest crypto-period index still retrievable from `key_pool_`), and the
cached terminal status `common_encryption_request_status_` (`Status.OK`
while no fatal error has occurred). -/
structure SourceState where
  key_production_started : Bool
  first_crypto_period_index : Nat
  head_index : Nat
  common_encryption_request_status : Status
deriving DecidableEq

/-- The state of a freshly constructed source: production not started and no
cached error. -/
def initialSourceState : SourceState :=
  { key_production_started := false
    first_crypto_period_index := 0
    head_index := 0
    common_encryption_request_status := Status.OK }

/-- Modelled from the spec: the implementation of
`WidevineEncryptionKeySource::GetKeyInternal` is not in the repository (only
its declaration, widevine_encryption_key_source.h lines 61-63).  Spec §4.4:
the call blocks on the queue until the batch for the requested index is
available; requesting an index lower than one already consumed is an error;
a response missing the expected track is a fatal protocol error (spec §4.2
edge cases, §8).  The deterministic index-to-batch mapping of spec §3 is the
parameter `server`; blocking production up to `index` is modelled by reading
`server index` directly and advancing the queue head to `index`. -/
def serveFromQueue (server : Nat → EncryptionKeyMap) (st : SourceState)
    (index : Nat) (t : TrackType) : Except Status EncryptionKey × SourceState :=
  if index < st.head_index then
    (Except.error Status.UsageError, st)
  else
    match lookupTrack (server index) t with
    | some k => (Except.ok k, { st with head_index := index })
    | none =>
        (Except.error Status.ProtocolDesync,
          { st with common_encryption_request_status := Status.ProtocolDesync })

/-- Modelled from the spec: the implementation of
`WidevineEncryptionKeySource::GetCryptoPeriodKey` is not in the repository
(only its declaration, widevine_encryption_key_source.h lines 45-47).
Spec §4.4 and §7: a cached fatal status is returned to every call; otherwise
the first call lazily starts key production seeded with its index, and the
key for (index, track) is served from the queue. -/
def GetCryptoPeriodKey (server : Nat → EncryptionKeyMap) (st : SourceState)
    (index : Nat) (t : TrackType) : Except Status EncryptionKey × SourceState :=
  if st.common_encryption_request_status ≠ Status.OK then
    (Except.error st.common_encryption_request_status, st)
  else if st.key_production_started then
    serveFromQueue server st index t
  else
    serveFromQueue server
      { st with
          key_production_started := true
          first_crypto_period_index := index
          head_index := index }
      index t

/-- Modelled from the spec: the implementation of
`WidevineEncryptionKeySource::GetKey` is not in the repository (only its
declaration, widevine_encryption_key_source.h line 44).  Spec §4.4: returns
the cached single-lifetime key for the track (`encryption_key_map_` in the
header, here the parameter `staticKeys`); fails with the cached fatal status
if one is recorded. -/
def GetKey (staticKeys : EncryptionKeyMap) (st : SourceState) (t : TrackType) :
    Except Status EncryptionKey × SourceState :=
  if st.common_encryption_request_status ≠ Status.OK then
    (Except.error st.common_encryption_request_status, st)
  else
    match lookupTrack staticKeys t with
    | some k => (Except.ok k, st)
    | none =>
        (Except.error Status.ProtocolDesync,
          { st with common_encryption_request_status := Status.ProtocolDesync })

/-- A call to the public key-fetching API of the source. -/
inductive KeyCall
  | getKey (t : TrackType)
  | getCryptoPeriodKey (index : Nat) (t : TrackType)
deriving DecidableEq

/-- Run one public API call against a source state. -/
def runCall (server : Nat → EncryptionKeyMap) (staticKeys : EncryptionKeyMap)
    (st : SourceState) : KeyCall → Except Status EncryptionKey × SourceState
  | KeyCall.getKey t => GetKey staticKeys st t
  | KeyCall.getCryptoPeriodKey i t => GetCryptoPeriodKey server st i t

/-- Run a sequence of public API calls, threading the source state, and
collect the per-call results. -/
def runCalls (server : Nat → EncryptionKeyMap) (staticKeys : EncryptionKeyMap) :
    SourceState → List KeyCall → List (Except Status EncryptionKey) × SourceState
  | st, [] => ([], st)
  | st, c :: cs =>
      ((runCall server staticKeys st c).1 ::
          (runCalls server staticKeys (runCall server staticKeys st c).2 cs).1,
        (runCalls server staticKeys (runCall server staticKeys st c).2 cs).2)

/-- Run a sequence of `GetCryptoPeriodKey` calls, threading the source state,
and collect the per-call results. -/
def runCryptoCalls (server : Nat → EncryptionKeyMap) :
    SourceState → List (Nat × TrackType) →
      List (Except Status EncryptionKey) × SourceState
  | st, [] => ([], st)
  | st, q :: qs =>
      ((GetCryptoPeriodKey server st q.1 q.2).1 ::
          (runCryptoCalls server (GetCryptoPeriodKey server st q.1 q.2).2 qs).1,
        (runCryptoCalls server (GetCryptoPeriodKey server st q.1 q.2).2 qs).2)

/-- The status field of a parsed key-server response (spec §6 wire protocol:
success / transient-error / fatal-error). -/
inductive ResponseStatus
  | success
  | transientError
  | fatalError
deriving DecidableEq

/-- A parsed (JSON-decoded) key-server response: the status field and, on
success, one key batch per crypto period (spec §6). -/
structure ParsedResponse where
  status : ResponseStatus
  periods : List (Nat × EncryptionKeyMap)
deriving DecidableEq

/-- A raw HTTP response body (a byte/character sequence, possibly not
well-formed JSON). -/
abbrev RawResponse := List Char

/-- Modelled from the spec: the implementation of
`WidevineEncryptionKeySource::DecodeResponse` is not in the repository (only
its declaration, widevine_encryption_key_source.h lines 80-82).  Spec §4.2:
JSON-parses the raw response.  JSON parsing itself is an external
collaborator (spec §1), so it is the parameter `jsonParse`; a body that is
not well-formed JSON is exactly one on which `jsonParse` returns `none`. -/
def DecodeResponse (jsonParse : RawResponse → Option ParsedResponse)
    (raw_response : RawResponse) : Option ParsedResponse :=
  jsonParse raw_response

/-- Modelled from the spec: the implementation of
`WidevineEncryptionKeySource::ExtractEncryptionKey` is not in the repository
(only its declaration, widevine_encryption_key_source.h lines 83-88).
Spec §4.2 ExtractKeys: a known transient status sets the transient flag and
returns no keys; an explicit failure status with no transient marker is
fatal with the flag false; success extracts the key batches.  Returns
(extracted batches, transient flag). -/
def ExtractEncryptionKey (response : ParsedResponse) :
    Option (List (Nat × EncryptionKeyMap)) × Bool :=
  match response.status with
  | ResponseStatus.success => (some response.periods, false)
  | ResponseStatus.transientError => (none, true)
  | ResponseStatus.fatalError => (none, false)

/-- Outcome of one fetch attempt against the key server. -/
inductive FetchOutcome
  | fetched (periods : List (Nat × EncryptionKeyMap))
  | transientFailure (s : Status)
  | fatalFailure (s : Status)
deriving DecidableEq

/-- Modelled from the spec: one attempt of
`WidevineEncryptionKeySource::FetchKeys`, whose implementation is not in the
repository (only its declaration, widevine_encryption_key_source.h line 69).
Spec §4.2: transport failure is transient (`httpResult = none`); a body that
fails `DecodeResponse` is a fatal DecodeError; otherwise
`ExtractEncryptionKey` classifies by the response status (ServerBusy
transient, ServerRejection fatal). -/
def fetchAttempt (jsonParse : RawResponse → Option ParsedResponse)
    (httpResult : Option RawResponse) : FetchOutcome :=
  match httpResult with
  | none => FetchOutcome.transientFailure Status.TransportError
  | some raw =>
      match DecodeResponse jsonParse raw with
      | none => FetchOutcome.fatalFailure Status.DecodeError
      | some resp =>
          match ExtractEncryptionKey resp with
          | (some ps, _) => FetchOutcome.fetched ps
          | (none, true) => FetchOutcome.transientFailure Status.ServerBusy
          | (none, false) => FetchOutcome.fatalFailure Status.ServerRejection

/-- What the key-production loop does with one fetch outcome. -/
inductive LoopAction
  | advance (periods : List (Nat × EncryptionKeyMap))
  | retryAfterBackoff
  | stopFatal (s : Status)
deriving DecidableEq

/-- Modelled from the spec: the classification step of
`WidevineEncryptionKeySource::FetchKeysTask`, whose implementation is not in
the repository (only its declaration, widevine_encryption_key_source.h
line 66).  Spec §4.3 steps 3-5: on success push and advance; on transient
failure retry after backoff; on fatal failure record the status and stop the
loop (no retry). -/
def productionLoopStep (o : FetchOutcome) : LoopAction :=
  match o with
  | FetchOutcome.fetched ps => LoopAction.advance ps
  | FetchOutcome.transientFailure _ => LoopAction.retryAfterBackoff
  | FetchOutcome.fatalFailure s => LoopAction.stopFatal s

/-- Producer-side state of the key-production loop: the cursor to the next
crypto-period index to request, and the indices of the batches pushed to the
key pool so far. -/
structure ProducerState where
  next_index : Nat
  pushed : List Nat
deriving DecidableEq

/-- Modelled from the spec: one successful iteration of
`WidevineEncryptionKeySource::FetchKeysTask`, whose implementation is not in
the repository (only its declaration, widevine_encryption_key_source.h
lines 65-69).  Spec §4.3 steps 2-3: request the next contiguous unrequested
range of crypto-period indices (`crypto_period_count` wide, starting at the
cursor), push the resulting batches in index order, and advance the
cursor. -/
def fetchKeysTaskStep (crypto_period_count : Nat) (p : ProducerState) :
    ProducerState :=
  { next_index := p.next_index + crypto_period_count
    pushed := p.pushed ++ List.range' p.next_index crypto_period_count }

/-- Modelled from the spec: the key-production loop after `k` successful
iterations, seeded with the first crypto-period index ever requested
(`first_crypto_period_index_` in the header, spec §4.3 step 1). -/
def fetchKeysTaskRun (first_crypto_period_index crypto_period_count : Nat) :
    Nat → ProducerState
  | 0 => { next_index := first_crypto_period_index, pushed := [] }
  | Nat.succ k =>
      fetchKeysTaskStep crypto_period_count
        (fetchKeysTaskRun first_crypto_period_index crypto_period_count k)

/-! ## Part 2: LocalFile embedding (src/packager/media/file/local_file.cc) -/

/-- `kAdditionalFileMode` (local_file.cc line 20): files are always opened in
binary mode; the constant is the one-character string "b". -/
def kAdditionalFileMode : Char := 'b'

/-- `LocalFile::LocalFile` mode handling (local_file.cc lines 22-28):
`file_mode_` starts as the given mode; if `file_mode_.find("b")` is `npos`
the constructor appends "b".  `std::string::find` on the one-character
needle "b" returns `npos` exactly when no character of the mode equals
'b', so the test is membership of 'b'. -/
def LocalFile.fileMode (mode : List Char) : List Char :=
  if kAdditionalFileMode ∈ mode then mode else mode ++ [kAdditionalFileMode]

/-- A `LocalFile`'s handle state: `internal_file_` is the `FILE*`, `none`
standing for `NULL` (never successfully opened, local_file.cc line 25). -/
structure LocalFileState where
  internal_file : Option Nat
deriving DecidableEq

/-- Everything `LocalFile::Close` leaves behind: the return value, the final
handle value, and whether `delete this` ran. -/
structure CloseOutcome where
  result : Bool
  internal_file : Option Nat
  destroyed : Bool
deriving DecidableEq

/-- `LocalFile::Close` (local_file.cc lines 30-38): `result` starts `true`;
if the handle is non-null it becomes `base::CloseFile(handle)` (modelled by
the parameter `closeFile`) and the handle is nulled; `delete this` runs
unconditionally. -/
def LocalFile.Close (closeFile : Nat → Bool) (st : LocalFileState) :
    CloseOutcome :=
  match st.internal_file with
  | none => { result := true, internal_file := none, destroyed := true }
  | some h => { result := closeFile h, internal_file := none, destroyed := true }

/-- `LocalFile::Tell` (local_file.cc lines 84-94): `offset = ftello(file)`;
if `offset < 0` return `false` leaving `*position` untouched, else store the
offset into `*position` and return `true`.  The pair is (return value, value
of `*position` after the call), with `position` the value before the call. -/
def LocalFile.Tell (offset : Int) (position : Nat) : Bool × Nat :=
  if offset < 0 then (false, position) else (true, offset.toNat)

/-- The buffering state a `LocalFile` sees: bytes sitting in the stdio
buffer, bytes already on disk, and whether `fflush`/`ferror` respectively
`base::GetFileSize` fail. -/
structure FileBuffers where
  buffered : List Nat
  on_disk : List Nat
  flush_fails : Bool
  stat_fails : Bool
deriving DecidableEq

/-- `LocalFile::Flush` (local_file.cc lines 70-73): returns `true` exactly
when `fflush` succeeds with no stream error, in which case the buffered
bytes reach the disk. -/
def LocalFile.Flush (b : FileBuffers) : Bool × FileBuffers :=
  if b.flush_fails then (false, b)
  else (true, { b with buffered := [], on_disk := b.on_disk ++ b.buffered })

/-- `LocalFile::Size` (local_file.cc lines 52-68): flush buffered data first
(failure returns -1), then ask `base::GetFileSize` for the on-disk size of
the file's path (failure returns -1, modelled by `stat_fails`); otherwise
return the on-disk size after the flush. -/
def LocalFile.Size (b : FileBuffers) : Int :=
  if (LocalFile.Flush b).1 = false then -1
  else if (LocalFile.Flush b).2.stat_fails then -1
  else ((LocalFile.Flush b).2.on_disk.length : Int)

/-! ## Theorems: LocalFile (claims C7-C10) -/

/-- Claim C7: for every mode string, after construction the effective
`LocalFile` mode always contains the character 'b' — the constructor leaves
a mode already containing 'b' unchanged and appends "b" otherwise — so all
operations act on a binary-mode stream. -/
theorem localfile_mode_always_binary (mode : List Char) :
    kAdditionalFileMode ∈ LocalFile.fileMode mode ∧
    ((kAdditionalFileMode ∈ mode ∧ LocalFile.fileMode mode = mode) ∨
      (kAdditionalFileMode ∉ mode ∧
        LocalFile.fileMode mode = mode ++ [kAdditionalFileMode])) := by
  by_cases h : kAdditionalFileMode ∈ mode
  · have hm : LocalFile.fileMode mode = mode := by simp [LocalFile.fileMode, h]
    exact ⟨by rw [hm]; exact h, Or.inl ⟨h, hm⟩⟩
  · refine ⟨?_, Or.inr ⟨h, by simp [LocalFile.fileMode, h]⟩⟩
    simp [LocalFile.fileMode, h]

/-- Claim C8: `LocalFile::Tell` returns `false` exactly when the queried
stream offset is negative, and then leaves the caller's position variable
unmodified; on a non-negative offset it returns `true` and stores exactly
that offset. -/
theorem localfile_tell_spec (offset : Int) (position : Nat) :
    ((LocalFile.Tell offset position).1 = false ↔ offset < 0) ∧
    ((offset < 0 ∧ LocalFile.Tell offset position = (false, position)) ∨
      (0 ≤ offset ∧ (LocalFile.Tell offset position).1 = true ∧
        ((LocalFile.Tell offset position).2 : Int) = offset)) := by
  by_cases h : offset < 0
  · simp [LocalFile.Tell, h]
  · have h0 : (0 : Int) ≤ offset := by omega
    simp [LocalFile.Tell, h, h0, Int.toNat_of_nonneg h0]

/-- Claim C9: `LocalFile::Close` returns `true` when the file was never
successfully opened (null handle) and otherwise returns the underlying
close's result; in every case it clears the handle and destroys the object
(`delete this`), so it is safe on an unopened file but can never run twice
on the same object. -/
theorem localfile_close_spec (closeFile : Nat → Bool) (st : LocalFileState) :
    (LocalFile.Close closeFile st).internal_file = none ∧
    (LocalFile.Close closeFile st).destroyed = true ∧
    ((st.internal_file = none ∧ (LocalFile.Close closeFile st).result = true) ∨
      (∃ h, st.internal_file = some h ∧
        (LocalFile.Close closeFile st).result = closeFile h)) := by
  obtain ⟨f⟩ := st
  cases f with
  | none => simp [LocalFile.Close]
  | some h => simp [LocalFile.Close]

/-- Claim C10: `LocalFile::Size` returns -1 exactly when the flush of
buffered data fails or the file-size query fails; otherwise it returns the
on-disk size after the flush (on-disk bytes plus previously buffered bytes),
never a stale pre-flush size. -/
theorem localfile_size_spec (b : FileBuffers) :
    (LocalFile.Size b = -1 ↔ (b.flush_fails = true ∨ b.stat_fails = true)) ∧
    ((b.flush_fails = true ∨ b.stat_fails = true) ∨
      LocalFile.Size b = ((b.on_disk.length + b.buffered.length : Nat) : Int)) := by
  obtain ⟨buf, disk, ff, sf⟩ := b
  cases ff <;> cases sf <;>
    (simp [LocalFile.Size, LocalFile.Flush]; try omega)

/-! ## Theorems: WidevineEncryptionKeySource (claims C3, C4, C5) -/

/-- Helper: a call made while a fatal status is cached returns that status
and leaves the state unchanged. -/
theorem runCall_fatal (server : Nat → EncryptionKeyMap)
    (staticKeys : EncryptionKeyMap) (st : SourceState) (c : KeyCall)
    (h : st.common_encryption_request_status ≠ Status.OK) :
    runCall server staticKeys st c =
      (Except.error st.common_encryption_request_status, st) := by
  cases c with
  | getKey t => simp [runCall, GetKey, h]
  | getCryptoPeriodKey i t => simp [runCall, GetCryptoPeriodKey, h]

/-- Claim C3: once a fatal error is cached in
`common_encryption_request_status_`, every subsequent `GetKey` or
`GetCryptoPeriodKey` call on that instance returns that same fatal status;
the error is never replaced by success and never silently swallowed (the
state, including the cached status, is unchanged by every further call). -/
theorem widevine_fatal_status_is_cached_and_sticky
    (server : Nat → EncryptionKeyMap) (staticKeys : EncryptionKeyMap)
    (st : SourceState) (calls : List KeyCall)
    (hfatal : st.common_encryption_request_status ≠ Status.OK) :
    (runCalls server staticKeys st calls).1 =
      calls.map (fun _ => Except.error st.common_encryption_request_status) ∧
    (runCalls server staticKeys st calls).2 = st := by
  induction calls with
  | nil => simp [runCalls]
  | cons c cs ih =>
      have hc := runCall_fatal server staticKeys st c hfatal
      refine ⟨?_, ?_⟩
      · simp [runCalls, hc, ih.1]
      · simp [runCalls, hc, ih.2]

/-- A source state carrying a cached fatal server rejection, used to
instantiate the C3 theorem. -/
def c3FatalState : SourceState :=
  { key_production_started := true
    first_crypto_period_index := 0
    head_index := 2
    common_encryption_request_status := Status.ServerRejection }

/-- Witness for C3 at a concrete fatal state and call sequence. -/
theorem widevine_fatal_status_is_cached_and_sticky_witness :
    (runCalls (fun _ => []) [] c3FatalState
        [KeyCall.getKey TrackType.SD,
          KeyCall.getCryptoPeriodKey 5 TrackType.HD]).1 =
      [KeyCall.getKey TrackType.SD,
        KeyCall.getCryptoPeriodKey 5 TrackType.HD].map
        (fun _ => Except.error c3FatalState.common_encryption_request_status) ∧
    (runCalls (fun _ => []) [] c3FatalState
        [KeyCall.getKey TrackType.SD,
          KeyCall.getCryptoPeriodKey 5 TrackType.HD]).2 = c3FatalState :=
  widevine_fatal_status_is_cached_and_sticky (fun _ => []) [] c3FatalState
    [KeyCall.getKey TrackType.SD, KeyCall.getCryptoPeriodKey 5 TrackType.HD]
    (by decide)

/-- Claim C4: a raw HTTP response body that is not well-formed JSON makes
the decode step fail fatally with `DecodeError`, and the production loop
stops instead of retrying that request — malformed JSON is never classified
as transient. -/
theorem widevine_malformed_json_is_fatal_not_retried
    (jsonParse : RawResponse → Option ParsedResponse) (raw : RawResponse)
    (h : jsonParse raw = none) :
    fetchAttempt jsonParse (some raw) =
      FetchOutcome.fatalFailure Status.DecodeError ∧
    productionLoopStep (fetchAttempt jsonParse (some raw)) =
      LoopAction.stopFatal Status.DecodeError ∧
    productionLoopStep (fetchAttempt jsonParse (some raw)) ≠
      LoopAction.retryAfterBackoff := by
  have hd : DecodeResponse jsonParse raw = none := h
  refine ⟨?_, ?_, ?_⟩ <;> simp [fetchAttempt, hd, productionLoopStep]

/-- Witness for C4 at a parser rejecting everything and a concrete body. -/
theorem widevine_malformed_json_is_fatal_not_retried_witness :
    fetchAttempt (fun _ => none) (some ['x']) =
      FetchOutcome.fatalFailure Status.DecodeError ∧
    productionLoopStep (fetchAttempt (fun _ => none) (some ['x'])) =
      LoopAction.stopFatal Status.DecodeError ∧
    productionLoopStep (fetchAttempt (fun _ => none) (some ['x'])) ≠
      LoopAction.retryAfterBackoff :=
  widevine_malformed_json_is_fatal_not_retried (fun _ => none) ['x'] rfl

/-- Claim C5: `ExtractEncryptionKey` sets its transient flag to true and
returns no keys exactly when the parsed response's status field carries the
known transient value; an explicit failure status without the transient
marker yields a fatal failure with the flag false; key batches are
extracted only on a success status. -/
theorem widevine_extract_key_transient_classification
    (s : ResponseStatus) (ps : List (Nat × EncryptionKeyMap)) :
    (((ExtractEncryptionKey ⟨s, ps⟩).2 = true ∧
        (ExtractEncryptionKey ⟨s, ps⟩).1 = none) ↔
      s = ResponseStatus.transientError) ∧
    ExtractEncryptionKey ⟨ResponseStatus.fatalError, ps⟩ = (none, false) ∧
    ExtractEncryptionKey ⟨ResponseStatus.success, ps⟩ = (some ps, false) ∧
    ((ExtractEncryptionKey ⟨s, ps⟩).1.isSome ↔ s = ResponseStatus.success) := by
  cases s <;> simp [ExtractEncryptionKey]

/-! ## Theorems: WidevineEncryptionKeySource (claim C1) -/

/-- Helper: with a total server (every track present in every batch), a
`GetCryptoPeriodKey` call at an index at or beyond the queue head succeeds
with exactly that index's key and advances the head to the index. -/
theorem getCryptoPeriodKey_ok
    (server : Nat → EncryptionKeyMap) (f : Nat → TrackType → EncryptionKey)
    (hserver : ∀ i t, lookupTrack (server i) t = some (f i t))
    (st : SourceState) (i : Nat) (t : TrackType)
    (hOK : st.common_encryption_request_status = Status.OK)
    (hhead : st.key_production_started = true → st.head_index ≤ i) :
    (GetCryptoPeriodKey server st i t).1 = Except.ok (f i t) ∧
    (GetCryptoPeriodKey server st i t).2.common_encryption_request_status =
      Status.OK ∧
    (GetCryptoPeriodKey server st i t).2.key_production_started = true ∧
    (GetCryptoPeriodKey server st i t).2.head_index = i := by
  cases hs : st.key_production_started with
  | false =>
      have hi : ¬ (i < i) := by omega
      simp [GetCryptoPeriodKey, hOK, hs, serveFromQueue, hi, hserver]
  | true =>
      have hle := hhead hs
      have hi : ¬ (i < st.head_index) := by omega
      simp [GetCryptoPeriodKey, hOK, hs, serveFromQueue, hi, hserver]

/-- Helper, the C1 induction: with a total server, a monotone request
sequence whose first index is at or beyond the queue head yields, for every
call, exactly the key the server issued for the requested index and
track. -/
theorem runCryptoCalls_exact
    (server : Nat → EncryptionKeyMap) (f : Nat → TrackType → EncryptionKey)
    (hserver : ∀ i t, lookupTrack (server i) t = some (f i t)) :
    ∀ (reqs : List (Nat × TrackType)) (st : SourceState),
      st.common_encryption_request_status = Status.OK →
      (st.key_production_started = true →
        ∀ q ∈ reqs.head?, st.head_index ≤ q.1) →
      List.Chain' (fun a b : Nat × TrackType => a.1 ≤ b.1) reqs →
      (runCryptoCalls server st reqs).1 =
        reqs.map (fun q => Except.ok (f q.1 q.2))
  | [], st, _, _, _ => by simp [runCryptoCalls]
  | q :: qs, st, hOK, hhead, hchain => by
      have hq : st.key_production_started = true → st.head_index ≤ q.1 := by
        intro h
        exact hhead h q (by simp)
      have hcall := getCryptoPeriodKey_ok server f hserver st q.1 q.2 hOK hq
      have hchain2 := List.chain'_cons'.mp hchain
      have hrec := runCryptoCalls_exact server f hserver qs
          (GetCryptoPeriodKey server st q.1 q.2).2 hcall.2.1
          (by
            intro _ r hr
            rw [hcall.2.2.2]
            exact hchain2.1 r hr)
          hchain2.2
      simp [runCryptoCalls, hcall.1, hrec]

/-- Claim C1: for every sequence of `GetCryptoPeriodKey` calls with
monotonically increasing crypto-period indices, starting from a fresh
source whose server issues a batch for every index and track, each call
returns the key of the batch produced for exactly the requested index and
track — never a neighbouring one — and repeated requests for a
not-yet-evicted index return the identical key. -/
theorem widevine_crypto_period_key_matches_requested_index
    (server : Nat → EncryptionKeyMap) (f : Nat → TrackType → EncryptionKey)
    (hserver : ∀ i t, lookupTrack (server i) t = some (f i t))
    (reqs : List (Nat × TrackType))
    (hmono : List.Chain' (fun a b : Nat × TrackType => a.1 ≤ b.1) reqs) :
    (runCryptoCalls server initialSourceState reqs).1 =
      reqs.map (fun q => Except.ok (f q.1 q.2)) :=
  runCryptoCalls_exact server f hserver reqs initialSourceState rfl
    (by intro h; simp [initialSourceState] at h) hmono

/-- The per-index key batches issued by the C1 witness's server. -/
def c1Key (i : Nat) (t : TrackType) : EncryptionKey :=
  match t with
  | TrackType.SD => ⟨[i], [i, 0], [0]⟩
  | TrackType.HD => ⟨[i], [i, 1], [1]⟩
  | TrackType.AUDIO => ⟨[i], [i, 2], [2]⟩

/-- The C1 witness's server: one batch per index holding a key for every
track. -/
def c1Server (i : Nat) : EncryptionKeyMap :=
  [(TrackType.SD, c1Key i TrackType.SD),
    (TrackType.HD, c1Key i TrackType.HD),
    (TrackType.AUDIO, c1Key i TrackType.AUDIO)]

/-- The monotone request sequence of the C1 witness (with a repeated
index). -/
def c1Reqs : List (Nat × TrackType) :=
  [(0, TrackType.SD), (1, TrackType.HD), (1, TrackType.SD),
    (3, TrackType.AUDIO)]

/-- Witness for C1 at a concrete server and monotone request sequence. -/
theorem widevine_crypto_period_key_matches_requested_index_witness :
    (runCryptoCalls c1Server initialSourceState c1Reqs).1 =
      c1Reqs.map (fun q => Except.ok (c1Key q.1 q.2)) :=
  widevine_crypto_period_key_matches_requested_index c1Server c1Key
    (fun i t => by cases t <;> rfl) c1Reqs
    (by simp [c1Reqs, List.chain'_cons, List.chain'_singleton])

/-! ## Theorems: WidevineEncryptionKeySource (claim C2) -/

/-- Helper: `GetKeyInternal` never moves the queue head backwards and never
clears the production-started flag. -/
theorem serveFromQueue_monotone (server : Nat → EncryptionKeyMap)
    (st : SourceState) (i : Nat) (t : TrackType) :
    (serveFromQueue server st i t).2.key_production_started =
      st.key_production_started ∧
    st.head_index ≤ (serveFromQueue server st i t).2.head_index := by
  unfold serveFromQueue
  by_cases hlt : i < st.head_index
  · simp [hlt]
  · cases hl : lookupTrack (server i) t with
    | some k =>
        rw [if_neg hlt]
        exact ⟨rfl, show st.head_index ≤ i by omega⟩
    | none => simp [hlt, hl]

/-- Helper: any `GetCryptoPeriodKey` call on a source whose production has
started keeps it started and never moves the queue head backwards. -/
theorem getCryptoPeriodKey_monotone (server : Nat → EncryptionKeyMap)
    (st : SourceState) (i : Nat) (t : TrackType)
    (h : st.key_production_started = true) :
    (GetCryptoPeriodKey server st i t).2.key_production_started = true ∧
    st.head_index ≤ (GetCryptoPeriodKey server st i t).2.head_index := by
  have hs := serveFromQueue_monotone server st i t
  unfold GetCryptoPeriodKey
  by_cases hOK : st.common_encryption_request_status ≠ Status.OK
  · simp [hOK, h]
  · simp only [hOK, if_false, h, if_true]
    exact ⟨hs.1.trans h, hs.2⟩

/-- Helper: a whole sequence of `GetCryptoPeriodKey` calls keeps production
started and never moves the queue head backwards. -/
theorem runCryptoCalls_monotone (server : Nat → EncryptionKeyMap) :
    ∀ (calls : List (Nat × TrackType)) (st : SourceState),
      st.key_production_started = true →
      (runCryptoCalls server st calls).2.key_production_started = true ∧
      st.head_index ≤ (runCryptoCalls server st calls).2.head_index
  | [], st, h => by simp [runCryptoCalls, h]
  | q :: qs, st, h => by
      have h1 := getCryptoPeriodKey_monotone server st q.1 q.2 h
      have h2 := runCryptoCalls_monotone server qs
          (GetCryptoPeriodKey server st q.1 q.2).2 h1.1
      exact ⟨by simpa [runCryptoCalls] using h2.1,
        by simpa [runCryptoCalls] using h1.2.trans h2.2⟩

/-- Helper: a successful `GetKeyInternal` leaves the production flag
unchanged and sets the queue head to the requested index. -/
theorem serveFromQueue_ok_state (server : Nat → EncryptionKeyMap)
    (st st1 : SourceState) (i : Nat) (t : TrackType) (k : EncryptionKey)
    (h : serveFromQueue server st i t = (Except.ok k, st1)) :
    st1.key_production_started = st.key_production_started ∧
    st1.head_index = i := by
  unfold serveFromQueue at h
  by_cases hlt : i < st.head_index
  · rw [if_pos hlt] at h
    simp at h
  · rw [if_neg hlt] at h
    cases hl : lookupTrack (server i) t with
    | some k2 =>
        rw [hl] at h
        have h2 : ({ st with head_index := i } : SourceState) = st1 :=
          congrArg Prod.snd h
        rw [← h2]
        exact ⟨rfl, rfl⟩
    | none =>
        rw [hl] at h
        simp at h

/-- Helper: a successful `GetCryptoPeriodKey` leaves production started and
the queue head exactly at the requested (now consumed) index. -/
theorem getCryptoPeriodKey_ok_state (server : Nat → EncryptionKeyMap)
    (st st1 : SourceState) (i : Nat) (t : TrackType) (k : EncryptionKey)
    (h : GetCryptoPeriodKey server st i t = (Except.ok k, st1)) :
    st1.key_production_started = true ∧ st1.head_index = i := by
  unfold GetCryptoPeriodKey at h
  by_cases hOK : st.common_encryption_request_status ≠ Status.OK
  · rw [if_pos hOK] at h
    simp at h
  · rw [if_neg hOK] at h
    by_cases hs : st.key_production_started
    · rw [if_pos hs] at h
      have := serveFromQueue_ok_state server st st1 i t k h
      exact ⟨this.1.trans hs, this.2⟩
    · rw [if_neg hs] at h
      have := serveFromQueue_ok_state server
          { st with
              key_production_started := true
              first_crypto_period_index := i
              head_index := i }
          st1 i t k h
      exact ⟨this.1, this.2⟩

/-- Helper: a `GetCryptoPeriodKey` call below the queue head fails with a
non-OK status. -/
theorem getCryptoPeriodKey_low_error (server : Nat → EncryptionKeyMap)
    (st : SourceState) (M : Nat) (t : TrackType)
    (hstart : st.key_production_started = true)
    (hM : M < st.head_index) :
    ∃ e, (GetCryptoPeriodKey server st M t).1 = Except.error e ∧
      e ≠ Status.OK := by
  by_cases hOK : st.common_encryption_request_status ≠ Status.OK
  · exact ⟨st.common_encryption_request_status,
      by simp [GetCryptoPeriodKey, hOK], hOK⟩
  · refine ⟨Status.UsageError, ?_, by decide⟩
    simp [GetCryptoPeriodKey, hOK, hstart, serveFromQueue, hM]

/-- Claim C2: once `GetCryptoPeriodKey` has succeeded for some index `N`
(so `N` is consumed), a later call — after arbitrarily many further
`GetCryptoPeriodKey` calls — with any index strictly lower than `N` returns
an error status rather than a key: consumption is monotonic and
forward-only. -/
theorem widevine_lower_index_is_error (server : Nat → EncryptionKeyMap)
    (st st1 : SourceState) (N M : Nat) (t t2 : TrackType)
    (k : EncryptionKey) (later : List (Nat × TrackType))
    (hN : GetCryptoPeriodKey server st N t = (Except.ok k, st1))
    (hM : M < N) :
    ∃ e, (GetCryptoPeriodKey server
        (runCryptoCalls server st1 later).2 M t2).1 = Except.error e ∧
      e ≠ Status.OK := by
  have hs := getCryptoPeriodKey_ok_state server st st1 N t k hN
  have hm := runCryptoCalls_monotone server later st1 hs.1
  apply getCryptoPeriodKey_low_error
  · exact hm.1
  · have h1 := hs.2
    have h2 := hm.2
    omega

/-- The C2 witness's server: one batch per index with a single SD key. -/
def c2Server (i : Nat) : EncryptionKeyMap :=
  [(TrackType.SD, ⟨[i], [i], [i]⟩)]

/-- The state of the C2 witness's source right after index 5 is consumed. -/
def c2StateAfter5 : SourceState :=
  { key_production_started := true
    first_crypto_period_index := 5
    head_index := 5
    common_encryption_request_status := Status.OK }

/-- Witness for C2: consume index 5, then index 7, then request index 3. -/
theorem widevine_lower_index_is_error_witness :
    ∃ e, (GetCryptoPeriodKey c2Server
        (runCryptoCalls c2Server c2StateAfter5
          [(7, TrackType.SD)]).2 3 TrackType.SD).1 = Except.error e ∧
      e ≠ Status.OK :=
  widevine_lower_index_is_error c2Server initialSourceState c2StateAfter5
    5 3 TrackType.SD TrackType.SD ⟨[5], [5], [5]⟩ [(7, TrackType.SD)]
    rfl (by omega)

/-! ## Theorems: WidevineEncryptionKeySource (claim C6) -/

/-- Helper: concatenating two adjacent unit-step ranges gives one range. -/
theorem range_one_append : ∀ (m s n : Nat),
    List.range' s m ++ List.range' (s + m) n = List.range' s (m + n)
  | 0, s, n => by simp
  | m + 1, s, n => by
      have h1 : s + (m + 1) = (s + 1) + m := by omega
      have h2 : (m + 1) + n = (m + n) + 1 := by omega
      rw [h2, List.range'_succ, List.range'_succ, List.cons_append, h1,
        range_one_append m (s + 1) n]

/-- Helper: a nonempty unit-step range starts at its start index. -/
theorem range_one_head (s : Nat) : ∀ n, n ≠ 0 →
    (List.range' s n).head? = some s
  | 0, h => absurd rfl h
  | n + 1, _ => by rw [List.range'_succ]; rfl

/-- Helper: consecutive elements of a unit-step range differ by exactly
one. -/
theorem range_one_chain : ∀ (n s : Nat),
    List.Chain' (fun a b => a + 1 = b) (List.range' s n)
  | 0, _ => by simp
  | 1, s => by simp
  | n + 2, s => by
      rw [List.range'_succ, List.range'_succ]
      refine List.chain'_cons.mpr ⟨rfl, ?_⟩
      rw [← List.range'_succ]
      exact range_one_chain (n + 1) (s + 1)

/-- Helper: after `k` producer iterations the cursor sits at
`first + count * k` and the pushed indices are exactly the contiguous range
of length `count * k` starting at `first`. -/
theorem fetchKeysTaskRun_range (first count : Nat) :
    ∀ k, (fetchKeysTaskRun first count k).next_index = first + count * k ∧
      (fetchKeysTaskRun first count k).pushed = List.range' first (count * k)
  | 0 => by simp [fetchKeysTaskRun]
  | k + 1 => by
      have ih := fetchKeysTaskRun_range first count k
      have happ : List.range' first (count * k) ++
          List.range' (first + count * k) count =
          List.range' first (count * k + count) :=
        range_one_append (count * k) first count
      constructor
      · show (fetchKeysTaskRun first count k).next_index + count =
          first + count * (k + 1)
        rw [ih.1]
        ring
      · show (fetchKeysTaskRun first count k).pushed ++
          List.range' (fetchKeysTaskRun first count k).next_index count =
          List.range' first (count * (k + 1))
        rw [ih.1, ih.2, happ, Nat.mul_succ]

/-- Claim C6: in every execution of the key-production loop, the
crypto-period indices of the batches pushed into the key queue form a
strictly increasing, contiguous sequence with no gaps (each pushed index is
the successor of the one before it), starting at the first index ever
requested from the server — an invariant holding after every producer
step. -/
theorem widevine_pushed_indices_contiguous (first count k : Nat) :
    List.Chain' (fun a b => a + 1 = b)
      (fetchKeysTaskRun first count k).pushed ∧
    ((fetchKeysTaskRun first count k).pushed = [] ∨
      (fetchKeysTaskRun first count k).pushed.head? = some first) := by
  have hr := (fetchKeysTaskRun_range first count k).2
  rw [hr]
  refine ⟨range_one_chain (count * k) first, ?_⟩
  rcases Nat.eq_zero_or_pos (count * k) with h0 | hpos
  · left
    rw [h0]
    simp
  · right
    exact range_one_head first (count * k) (by omega)
